import Mathlib

/-!
Verification of the MIDI drum-set-to-keyboard converter
(`src/mididrumkeyboard.cpp`): a shallow embedding of the stroke-segmentation
and pattern-recognition engine, followed by theorems about its behaviour.

Machine integers (`unsigned char` registers, the silence counter) are
modelled as `Nat`, with an explicit `% 256` where the C value can wrap.
The fixed-size C arrays `velocities` (9 bytes, one per pad) are modelled
as lists whose length-9 invariant is carried as a hypothesis where needed.
-/

/-! ## Tuning constants (lines 26-28 of the source) -/

/-- Source: `#define STROKE_THRESHOLD 0x05`. -/
def STROKE_THRESHOLD : Nat := 0x05

/-- Source: `#define HIT_THRESHOLD 0x0f`. -/
def HIT_THRESHOLD : Nat := 0x0f

/-- Source: `#define TICK_THRESHOLD 5`. -/
def TICK_THRESHOLD : Nat := 5

/-! ## Pad IDs (lines 31-39) -/

def BD : Nat := 0x21
def HHO : Nat := 0x2e
def HHC : Nat := 0x2a
def CRASH : Nat := 0x31
def SNARE : Nat := 0x28
def SIDETOM : Nat := 0x30
def RIDE : Nat := 0x3b
def FLOORTOM : Nat := 0x2f
def HATFOOT : Nat := 0x2c

/-! ## X keysym and modifier constants used by the map table
(numeric values from the X11 headers included by the source) -/

def XK_a : Nat := 0x61
def XK_b : Nat := 0x62
def XK_c : Nat := 0x63
def XK_d : Nat := 0x64
def XK_e : Nat := 0x65
def XK_f : Nat := 0x66
def XK_g : Nat := 0x67
def XK_h : Nat := 0x68
def XK_i : Nat := 0x69
def XK_j : Nat := 0x6a
def XK_k : Nat := 0x6b
def XK_l : Nat := 0x6c
def XK_m : Nat := 0x6d
def XK_n : Nat := 0x6e
def XK_o : Nat := 0x6f
def XK_p : Nat := 0x70
def XK_q : Nat := 0x71
def XK_r : Nat := 0x72
def XK_s : Nat := 0x73
def XK_t : Nat := 0x74
def XK_u : Nat := 0x75
def XK_v : Nat := 0x76
def XK_w : Nat := 0x77
def XK_x : Nat := 0x78
def XK_y : Nat := 0x79
def XK_z : Nat := 0x7a
def XK_A : Nat := 0x41
def XK_B : Nat := 0x42
def XK_C : Nat := 0x43
def XK_D : Nat := 0x44
def XK_E : Nat := 0x45
def XK_F : Nat := 0x46
def XK_G : Nat := 0x47
def XK_H : Nat := 0x48
def XK_I : Nat := 0x49
def XK_J : Nat := 0x4a
def XK_K : Nat := 0x4b
def XK_L : Nat := 0x4c
def XK_M : Nat := 0x4d
def XK_N : Nat := 0x4e
def XK_O : Nat := 0x4f
def XK_P : Nat := 0x50
def XK_Q : Nat := 0x51
def XK_R : Nat := 0x52
def XK_S : Nat := 0x53
def XK_T : Nat := 0x54
def XK_U : Nat := 0x55
def XK_V : Nat := 0x56
def XK_W : Nat := 0x57
def XK_X : Nat := 0x58
def XK_Y : Nat := 0x59
def XK_Z : Nat := 0x5a
def XK_space : Nat := 0x20
def XK_BackSpace : Nat := 0xff08
def XK_period : Nat := 0x2e
def XK_comma : Nat := 0x2c
def XK_exclam : Nat := 0x21
def XK_semicolon : Nat := 0x3b
def XK_Return : Nat := 0xff0d
def ShiftMask : Nat := 1

/-! ## The pattern table (lines 41-112) -/

/-- Source: `struct mapEntry { const char *content; int keycode; int modifiers; }`. -/
structure mapEntry where
  content : String
  keycode : Nat
  modifiers : Nat
deriving DecidableEq

/-- Source: `const struct mapEntry map[]` (lines 50-112), the map of drum
sequences to X keyboard codes.  Entries whose C initializer omits the
modifiers field get 0, per C aggregate initialization. -/
def map : List mapEntry := [
  ⟨"RIDE.", XK_a, 0⟩,
  ⟨"RIDE.RIDE.", XK_A, ShiftMask⟩,
  ⟨"BD,SNARE.", XK_b, 0⟩,
  ⟨"BD,SNARE.BD,SNARE.", XK_B, ShiftMask⟩,
  ⟨"CRASH,SNARE.", XK_c, 0⟩,
  ⟨"CRASH,SNARE.CRASH,SNARE.", XK_C, ShiftMask⟩,
  ⟨"CRASH,SIDETOM.", XK_d, 0⟩,
  ⟨"CRASH,SIDETOM.CRASH,SIDETOM.", XK_D, ShiftMask⟩,
  ⟨"SNARE.", XK_e, 0⟩,
  ⟨"SNARE.SNARE.", XK_E, ShiftMask⟩,
  ⟨"BD,HATFOOT.", XK_f, 0⟩,
  ⟨"BD,HATFOOT.BD,HATFOOT.", XK_F, ShiftMask⟩,
  ⟨"BD,FLOORTOM.", XK_g, 0⟩,
  ⟨"BD,FLOORTOM.BD,FLOORTOM.", XK_G, ShiftMask⟩,
  ⟨"SNARE,SIDETOM.", XK_h, 0⟩,
  ⟨"SNARE,SIDETOM.SNARE,SIDETOM.", XK_H, ShiftMask⟩,
  ⟨"SIDETOM.", XK_i, 0⟩,
  ⟨"SIDETOM.SIDETOM.", XK_I, ShiftMask⟩,
  ⟨"FLOORTOM,HATFOOT.", XK_j, 0⟩,
  ⟨"FLOORTOM,HATFOOT.FLOORTOM,HATFOOT.", XK_J, ShiftMask⟩,
  ⟨"HH,FLOORTOM.", XK_k, 0⟩,
  ⟨"HH,FLOORTOM.HH,FLOORTOM.", XK_K, ShiftMask⟩,
  ⟨"BD,SIDETOM.", XK_l, 0⟩,
  ⟨"BD,SIDETOM.BD,SIDETOM.", XK_L, ShiftMask⟩,
  ⟨"HH,SNARE.", XK_m, 0⟩,
  ⟨"HH,SNARE.HH,SNARE.", XK_M, ShiftMask⟩,
  ⟨"FLOORTOM.", XK_n, 0⟩,
  ⟨"FLOORTOM.FLOORTOM.", XK_N, ShiftMask⟩,
  ⟨"CRASH.", XK_o, 0⟩,
  ⟨"CRASH.CRASH.", XK_O, ShiftMask⟩,
  ⟨"SNARE,FLOORTOM.", XK_p, 0⟩,
  ⟨"SNARE,FLOORTOM.SNARE,FLOORTOM.", XK_P, ShiftMask⟩,
  ⟨"BD,SNARE,HATFOOT.", XK_q, 0⟩,
  ⟨"BD,SNARE,HATFOOT.BD,SNARE,HATFOOT.", XK_Q, ShiftMask⟩,
  ⟨"HATFOOT.", XK_r, 0⟩,
  ⟨"HATFOOT.HATFOOT.", XK_R, ShiftMask⟩,
  ⟨"CRASH,RIDE.", XK_s, 0⟩,
  ⟨"CRASH,RIDE.CRASH,RIDE.", XK_S, ShiftMask⟩,
  ⟨"HH.", XK_t, 0⟩,
  ⟨"HH.HH.", XK_T, ShiftMask⟩,
  ⟨"HH,CRASH.", XK_u, 0⟩,
  ⟨"HH,CRASH.HH,CRASH.", XK_U, ShiftMask⟩,
  ⟨"BD,CRASH,RIDE.", XK_v, 0⟩,
  ⟨"BD,CRASH,RIDE.BD,CRASH,RIDE.", XK_V, ShiftMask⟩,
  ⟨"BD,HH,RIDE.", XK_w, 0⟩,
  ⟨"BD,HH,RIDE.BD,HH,RIDE.", XK_W, ShiftMask⟩,
  ⟨"RIDE,HATFOOT.", XK_x, 0⟩,
  ⟨"RIDE,HATFOOT.RIDE,HATFOOT.", XK_X, ShiftMask⟩,
  ⟨"BD,SNARE,FLOORTOM.", XK_y, 0⟩,
  ⟨"BD,SNARE,FLOORTOM.BD,SNARE,FLOORTOM.", XK_Y, ShiftMask⟩,
  ⟨"BD,SNARE,SIDETOM.", XK_z, 0⟩,
  ⟨"BD,SNARE,SIDETOM.BD,SNARE,SIDETOM.", XK_Z, ShiftMask⟩,
  ⟨"BD.", XK_space, 0⟩,
  ⟨"BD,CRASH.", XK_BackSpace, 0⟩,
  ⟨"SNARE,RIDE.", XK_period, 0⟩,
  ⟨"HH,RIDE.", XK_comma, 0⟩,
  ⟨"BD,RIDE.", XK_exclam, ShiftMask⟩,
  ⟨"SIDETOM,RIDE.", XK_semicolon, 0⟩,
  ⟨"BD,SNARE,RIDE.", XK_Return, 0⟩,
  ⟨"", 0, 0⟩]

/-- Source: `const unsigned char drums[]` (line 117), the enumeration of
drums by pad ID. -/
def drums : List Nat := [BD, HHO, HHC, CRASH, SNARE, SIDETOM, RIDE, FLOORTOM, HATFOOT]

/-- Source: `const char *drumNames[]` (line 122). -/
def drumNames : List String :=
  ["BD", "HH", "HH", "CRASH", "SNARE", "SIDETOM", "RIDE", "FLOORTOM", "HATFOOT"]

/-! ## handleSentence (lines 169-194)

The pure content of `handleSentence` is the linear scan of the map table:
it walks the table until the empty-content sentinel, and on the first entry
whose content compares equal (`strcmp == 0`) to the sentence it sends the
entry's `(keycode, modifiers)` pair as a keystroke and returns true.  We
model it as returning the selected action, `none` for no match. -/

def sentenceScan : List mapEntry → String → Option (Nat × Nat)
  | [], _ => none
  | e :: rest, s =>
    if e.content = "" then none
    else if s = e.content then some (e.keycode, e.modifiers)
    else sentenceScan rest s

/-- The map lookup performed by `handleSentence` on the program's table. -/
def handleSentence (s : String) : Option (Nat × Nat) := sentenceScan map s

/-! ## handleStroke (lines 201-215) -/

/-- The loop of `handleStroke`: walk the (velocity, drum name) pairs; each
pad whose register is at least `STROKE_THRESHOLD` appends its name to the
buffer, preceded by a comma unless the buffer is still empty. -/
def strokeLoop : List (Nat × String) → Bool → String → String
  | [], _, acc => acc
  | p :: rest, empty, acc =>
    if STROKE_THRESHOLD ≤ p.1 then
      strokeLoop rest false ((if empty then acc else acc ++ ",") ++ p.2)
    else
      strokeLoop rest empty acc

/-- Source: `handleStroke(velocities, sizeof(drums))`, which renders the
chord of all pads whose velocity register is `>= STROKE_THRESHOLD` as their
comma-joined names followed by a period. -/
def handleStroke (velocities : List Nat) : String :=
  strokeLoop (velocities.zip drumNames) true "" ++ "."

/-! ## The engine state owned by main (lines 241-248) -/

/-- The mutable state of the decode loop in `main`: the per-pad velocity
registers (`unsigned char *velocities`, 9 bytes), the sentence buffer
(`char buf[1024]`, modelled as the string it holds) and the silence counter
(`unsigned char ticksSinceStroke`). -/
structure EngineState where
  velocities : List Nat
  buf : String
  ticks : Nat
deriving DecidableEq

/-- The startup state as a function of the initial contents of the
`velocities` buffer: the source sets `buf[0] = 0` and
`ticksSinceStroke = 0`, but obtains `velocities` from `malloc` without
initializing it, so its startup contents are whatever bytes `malloc`
returns. -/
def startState (mem : List Nat) : EngineState := ⟨mem, "", 0⟩

/-- Nine zeroed velocity registers: the contents `memset(velocities, 0,
sizeof(drums))` writes (and the startup contents the program logic
assumes). -/
def zeroVels : List Nat := List.replicate 9 0

/-- The zero-initialized startup state the rest of the program logic (and
the spec) assumes: all velocity registers 0, empty sentence, counter 0. -/
def initState : EngineState := startState zeroVels

/-! ## Tick handling (lines 253-277) -/

/-- Source (line 257): `velocities[i] / 2 < STROKE_THRESHOLD &&
velocities[i] >= STROKE_THRESHOLD` for some `i` sets `needsHandling`. -/
def needsHandling (velocities : List Nat) : Bool :=
  velocities.any fun v => decide (v / 2 < STROKE_THRESHOLD) && decide (STROKE_THRESHOLD ≤ v)

/-- The sentence buffer after the chord phase of a tick: when the tick
fires, the chord string is concatenated onto `buf` (line 262). -/
def postBuf (st : EngineState) : String :=
  if needsHandling st.velocities then st.buf ++ handleStroke st.velocities else st.buf

/-- The silence counter after the chord phase of a tick: line 260 resets it
to 0 only when the tick fires AND the sentence buffer was empty. -/
def postTicks (st : EngineState) : Nat :=
  if needsHandling st.velocities ∧ st.buf = "" then 0 else st.ticks

/-- The velocity registers after the chord phase (`memset` to 0 on firing,
line 264) and the per-tick halving (lines 266-268). -/
def postVels (st : EngineState) : List Nat :=
  (if needsHandling st.velocities then zeroVels else st.velocities).map fun v => v / 2

/-- The result of processing one MIDI tick byte: the successor state, the
chord string appended this tick (if any), and the sentence flushed to
`handleSentence` this tick (if any). -/
structure TickResult where
  state : EngineState
  chord : Option String
  flushed : Option String
deriving DecidableEq

/-- Source: the `if (ch == MIDI_TICK)` block of `main` (lines 253-277).
Chord detection and append, register zeroing, per-tick halving, then the
flush test `ticksSinceStroke++ > TICK_THRESHOLD && buf[0] != 0` (the
post-increment of the `unsigned char` counter always happens; the compared
value is the pre-increment one).  A flush clears the buffer, the counter
and the registers (lines 270-277). -/
def tick (st : EngineState) : TickResult :=
  let chord := if needsHandling st.velocities then some (handleStroke st.velocities) else none
  if TICK_THRESHOLD < postTicks st ∧ postBuf st ≠ "" then
    { state := ⟨zeroVels, "", 0⟩, chord := chord, flushed := some (postBuf st) }
  else
    { state := ⟨postVels st, postBuf st, (postTicks st + 1) % 256⟩,
      chord := chord, flushed := none }

/-! ## Note-on handling (lines 285-289) -/

/-- Source: after a note-on status byte, `main` reads the key and velocity
bytes and stores `velocities[c - drums] = velocity` only when
`velocity >= HIT_THRESHOLD` and the key occurs in `drums`; otherwise the
pair is discarded and nothing changes. -/
def noteOn (st : EngineState) (key velocity : Nat) : EngineState :=
  if HIT_THRESHOLD ≤ velocity ∧ key ∈ drums then
    { st with velocities := st.velocities.set (drums.indexOf key) velocity }
  else st

/-! ## The decode loop (lines 250-290) -/

/-- An observable output of the decode loop: a synthesized keystroke
(keycode and modifier mask, from a matched sentence) or the
`UNKNOWN SEQUENCE` diagnostic printed for an unmatched sentence. -/
inductive OutEvent where
  | keystroke (keycode modifiers : Nat)
  | unknownSequence (sentence : String)
deriving DecidableEq

/-- What a flushed sentence produces: the keystroke of the matching table
entry, or the diagnostic carrying the sentence's literal text. -/
def flushEvent (s : String) : OutEvent :=
  match handleSentence s with
  | some (k, m) => .keystroke k m
  | none => .unknownSequence s

/-- The output events (none or one) produced by one tick's flush field. -/
def flushOut : Option String → List OutEvent
  | some s => [flushEvent s]
  | none => []

mutual

/-- The two `read` calls after a note-on status byte (lines 285-286):
consume the key and velocity bytes, apply `noteOn`, and continue the loop.
If fewer than two bytes remain the stream ends. -/
def noteRead : List Nat → EngineState → EngineState × List OutEvent
  | key :: velocity :: rest, st => run rest (noteOn st key velocity)
  | _, st => (st, [])

/-- Source: the `while (1)` decode loop of `main`.  Each byte is examined:
`0xf8` is a tick; a byte whose high nibble is `9` (MIDI note-on, any
channel) is followed by two data bytes consumed as key and velocity; any
other byte is skipped.  Bytes are 8-bit, hence the `% 256`.  Returns the
final state and the list of output events in order. -/
def run : List Nat → EngineState → EngineState × List OutEvent
  | [], st => (st, [])
  | b :: rest, st =>
    if b % 256 = 0xf8 then
      let p := run rest (tick st).state
      (p.1, flushOut (tick st).flushed ++ p.2)
    else if (b % 256) / 16 = 9 then
      noteRead rest st
    else run rest st

end

/-- Processing of `n` consecutive tick bytes, collecting the chord strings
emitted along the way (used to count chords). -/
def tickRun (st : EngineState) : Nat → EngineState × List String
  | 0 => (st, [])
  | n + 1 =>
    let r := tick st
    let p := tickRun r.state n
    (p.1, (match r.chord with | some c => [c] | none => []) ++ p.2)

/-- One step of the decode loop as a relation between configurations
(remaining input bytes, engine state, output events emitted so far),
mirroring the three byte classes of `run`. -/
inductive DecodeStep :
    List Nat × EngineState × List OutEvent → List Nat × EngineState × List OutEvent → Prop where
  | clock (b : Nat) (rest : List Nat) (st : EngineState) (evs : List OutEvent) :
      b % 256 = 0xf8 →
      DecodeStep (b :: rest, st, evs) (rest, (tick st).state, evs ++ flushOut (tick st).flushed)
  | note (b key velocity : Nat) (rest : List Nat) (st : EngineState) (evs : List OutEvent) :
      b % 256 ≠ 0xf8 → (b % 256) / 16 = 9 →
      DecodeStep (b :: key :: velocity :: rest, st, evs) (rest, noteOn st key velocity, evs)
  | skip (b : Nat) (rest : List Nat) (st : EngineState) (evs : List OutEvent) :
      b % 256 ≠ 0xf8 → (b % 256) / 16 ≠ 9 →
      DecodeStep (b :: rest, st, evs) (rest, st, evs)

/-! ## Specification-side definitions, for refinement statements -/

/-- Helper for `commaJoin`: renders each further name with a preceding
comma. -/
def commaTail : List String → String
  | [] => ""
  | n :: rest => "," ++ n ++ commaTail rest

/-- The comma-joined rendering of a list of names. -/
def commaJoin : List String → String
  | [] => ""
  | n :: rest => n ++ commaTail rest

/-- The names of the pads whose velocity register is at least
`STROKE_THRESHOLD`, in the fixed pad-enumeration order of `drumNames`. -/
def qualifyingNames (velocities : List Nat) : List String :=
  ((velocities.zip drumNames).filter fun p => decide (STROKE_THRESHOLD ≤ p.1)).map Prod.snd

/-- The chord serialization as the spec words it: the qualifying pads'
names, comma-joined, terminated by a period. -/
def chordSpec (velocities : List Nat) : String :=
  commaJoin (qualifyingNames velocities) ++ "."

/-! ## Helper lemmas -/

theorem append_ne_empty_left {s : String} (t : String) (h : s ≠ "") : s ++ t ≠ "" := by
  intro he
  apply h
  have hd := congrArg String.data he
  simp only [String.data_append] at hd
  have : s.data = [] := (List.append_eq_nil.mp hd).1
  exact String.ext this

theorem strokeLoop_spec (ps : List (Nat × String)) : ∀ acc : String,
    strokeLoop ps false acc =
      acc ++ commaTail ((ps.filter fun p => decide (STROKE_THRESHOLD ≤ p.1)).map Prod.snd) ∧
    strokeLoop ps true acc =
      acc ++ commaJoin ((ps.filter fun p => decide (STROKE_THRESHOLD ≤ p.1)).map Prod.snd) := by
  induction ps with
  | nil => intro acc; simp [strokeLoop, commaTail, commaJoin]
  | cons p rest ih =>
    intro acc
    by_cases h : STROKE_THRESHOLD ≤ p.1
    · have hb : decide (STROKE_THRESHOLD ≤ p.1) = true := decide_eq_true h
      constructor
      · simp only [strokeLoop, if_pos h, if_neg (by simp : ¬(false = true))]
        rw [(ih ((acc ++ ",") ++ p.2)).1]
        simp [List.filter_cons, hb, commaTail, String.append_assoc]
      · simp only [strokeLoop, if_pos h, if_true]
        rw [(ih (acc ++ p.2)).1]
        simp [List.filter_cons, hb, commaJoin, String.append_assoc]
    · have hb : decide (STROKE_THRESHOLD ≤ p.1) = false := decide_eq_false h
      constructor
      · simp only [strokeLoop, if_neg h]
        rw [(ih acc).1]
        simp [List.filter_cons, hb]
      · simp only [strokeLoop, if_neg h]
        rw [(ih acc).2]
        simp [List.filter_cons, hb]

theorem handleStroke_eq_chordSpec (velocities : List Nat) :
    handleStroke velocities = chordSpec velocities := by
  have h := (strokeLoop_spec (velocities.zip drumNames) "").2
  simp only [handleStroke, chordSpec, qualifyingNames, h, String.empty_append]

theorem needsHandling_iff (vs : List Nat) :
    needsHandling vs = true ↔
      ∃ v ∈ vs, STROKE_THRESHOLD ≤ v ∧ v / 2 < STROKE_THRESHOLD := by
  simp only [needsHandling, List.any_eq_true, Bool.and_eq_true, decide_eq_true_eq]
  exact ⟨fun ⟨v, hv, h1, h2⟩ => ⟨v, hv, h2, h1⟩, fun ⟨v, hv, h1, h2⟩ => ⟨v, hv, h2, h1⟩⟩

theorem tick_chord (st : EngineState) :
    (tick st).chord =
      if needsHandling st.velocities then some (handleStroke st.velocities) else none := by
  simp only [tick]
  split <;> rfl

theorem tick_eq_of_flush (st : EngineState)
    (h : TICK_THRESHOLD < postTicks st ∧ postBuf st ≠ "") :
    tick st = ⟨⟨zeroVels, "", 0⟩,
      (if needsHandling st.velocities then some (handleStroke st.velocities) else none),
      some (postBuf st)⟩ := by
  simp only [tick, if_pos h]

theorem tick_eq_of_noflush (st : EngineState)
    (h : ¬(TICK_THRESHOLD < postTicks st ∧ postBuf st ≠ "")) :
    tick st = ⟨⟨postVels st, postBuf st, (postTicks st + 1) % 256⟩,
      (if needsHandling st.velocities then some (handleStroke st.velocities) else none),
      none⟩ := by
  simp only [tick, if_neg h]

theorem tick_flushed_isSome (st : EngineState) :
    (tick st).flushed.isSome ↔ st.buf ≠ "" ∧ TICK_THRESHOLD < st.ticks := by
  constructor
  · intro hs
    by_cases h : TICK_THRESHOLD < postTicks st ∧ postBuf st ≠ ""
    · obtain ⟨ht, hb⟩ := h
      by_cases hnb : st.buf = ""
      · by_cases hnh : needsHandling st.velocities = true
        · exfalso
          have : postTicks st = 0 := by simp [postTicks, hnh, hnb]
          rw [this] at ht
          exact absurd ht (by decide)
        · exfalso
          apply hb
          simp [postBuf, hnh, hnb]
      · refine ⟨hnb, ?_⟩
        have : postTicks st = st.ticks := by
          simp [postTicks, hnb]
        rwa [this] at ht
    · rw [tick_eq_of_noflush st h] at hs
      simp at hs
  · rintro ⟨hb, ht⟩
    have hco : TICK_THRESHOLD < postTicks st ∧ postBuf st ≠ "" := by
      constructor
      · have : postTicks st = st.ticks := by simp [postTicks, hb]
        rwa [this]
      · by_cases hnh : needsHandling st.velocities = true
        · simp only [postBuf, if_pos hnh]
          exact append_ne_empty_left _ hb
        · simp only [postBuf, if_neg hnh]
          exact hb
    rw [tick_eq_of_flush st hco]
    rfl


theorem needsHandling_zeroVels : needsHandling zeroVels = false := by decide

theorem zeroVels_map_half : zeroVels.map (fun v => v / 2) = zeroVels := by decide

theorem needsHandling_set_big (i v : Nat) (hv : 2 * STROKE_THRESHOLD ≤ v) :
    needsHandling (zeroVels.set i v) = false := by
  rw [needsHandling, List.any_eq_false]
  intro x hx
  rcases List.mem_or_eq_of_mem_set hx with hx0 | hxv
  · rw [zeroVels] at hx0
    have : x = 0 := List.eq_of_mem_replicate hx0
    subst this
    decide
  · subst hxv
    simp only [Bool.and_eq_true, decide_eq_true_eq, not_and]
    intro hlt
    simp only [STROKE_THRESHOLD] at hlt hv ⊢
    omega

theorem needsHandling_set_fire (i v : Nat) (hi : i < 9) (h5 : STROKE_THRESHOLD ≤ v)
    (h9 : v / 2 < STROKE_THRESHOLD) :
    needsHandling (zeroVels.set i v) = true := by
  rw [needsHandling, List.any_eq_true]
  refine ⟨v, List.mem_set zeroVels i (by rw [(by decide : zeroVels.length = 9)]; exact hi) v, ?_⟩
  simp [h5, h9]

theorem filter_zip_replicate_zero (ns : List String) : ∀ m : Nat,
    ((List.replicate m 0).zip ns).filter (fun p => decide (STROKE_THRESHOLD ≤ p.1)) = [] := by
  induction ns with
  | nil => intro m; simp
  | cons n rest ih =>
    intro m
    cases m with
    | zero => simp
    | succ m =>
      rw [List.replicate_succ, List.zip_cons_cons, List.filter_cons]
      rw [if_neg (by simp [STROKE_THRESHOLD])]
      exact ih m

theorem filter_zip_set (ns : List String) : ∀ i v : Nat, i < ns.length → STROKE_THRESHOLD ≤ v →
    (((List.replicate ns.length 0).set i v).zip ns).filter
        (fun p => decide (STROKE_THRESHOLD ≤ p.1)) = [(v, ns.getD i "")] := by
  induction ns with
  | nil => intro i v hi _; simp at hi
  | cons n rest ih =>
    intro i v hi hv
    cases i with
    | zero =>
      simp only [List.length_cons, List.replicate_succ, List.set_cons_zero, List.zip_cons_cons,
        List.filter_cons, List.getD_cons_zero]
      rw [if_pos (by simpa using hv)]
      rw [filter_zip_replicate_zero rest rest.length]
    | succ i =>
      simp only [List.length_cons, List.replicate_succ, List.set_cons_succ, List.zip_cons_cons,
        List.filter_cons, List.getD_cons_succ]
      rw [if_neg (by simp [STROKE_THRESHOLD])]
      exact ih i v (by simpa using hi) hv

theorem qualifyingNames_single (i v : Nat) (hi : i < 9) (hv : STROKE_THRESHOLD ≤ v) :
    qualifyingNames (zeroVels.set i v) = [drumNames.getD i ""] := by
  have hz : zeroVels = List.replicate drumNames.length 0 := rfl
  rw [qualifyingNames, hz,
    filter_zip_set drumNames i v (by rw [(by decide : drumNames.length = 9)]; exact hi) hv]
  rfl

theorem tick_quiet (b : String) (t : Nat) (hb : b = "") :
    tick ⟨zeroVels, b, t⟩ = ⟨⟨zeroVels, "", (t + 1) % 256⟩, none, none⟩ := by
  subst hb
  have hpb : postBuf ⟨zeroVels, "", t⟩ = "" := by
    simp [postBuf, needsHandling_zeroVels]
  have hnf : ¬(TICK_THRESHOLD < postTicks ⟨zeroVels, "", t⟩ ∧
      postBuf ⟨zeroVels, "", t⟩ ≠ "") := by
    rw [hpb]; simp
  rw [tick_eq_of_noflush _ hnf]
  simp [postVels, postTicks, hpb, needsHandling_zeroVels, zeroVels_map_half]

theorem tick_decay (i v t : Nat) (hv : 2 * STROKE_THRESHOLD ≤ v) :
    tick ⟨zeroVels.set i v, "", t⟩ =
      ⟨⟨zeroVels.set i (v / 2), "", (t + 1) % 256⟩, none, none⟩ := by
  have hnh := needsHandling_set_big i v hv
  have hpb : postBuf ⟨zeroVels.set i v, "", t⟩ = "" := by
    simp [postBuf, hnh]
  have hnf : ¬(TICK_THRESHOLD < postTicks ⟨zeroVels.set i v, "", t⟩ ∧
      postBuf ⟨zeroVels.set i v, "", t⟩ ≠ "") := by
    rw [hpb]; simp
  rw [tick_eq_of_noflush _ hnf]
  simp [postVels, postTicks, postBuf, hnh, List.map_set, zeroVels_map_half]

theorem tick_fire (i v t : Nat) (hi : i < 9) (h5 : STROKE_THRESHOLD ≤ v)
    (h9 : v / 2 < STROKE_THRESHOLD) :
    tick ⟨zeroVels.set i v, "", t⟩ =
      ⟨⟨zeroVels, drumNames.getD i "" ++ ".", 1⟩,
       some (drumNames.getD i "" ++ "."), none⟩ := by
  have hnh := needsHandling_set_fire i v hi h5 h9
  have hchord : handleStroke (zeroVels.set i v) = drumNames.getD i "" ++ "." := by
    rw [handleStroke_eq_chordSpec, chordSpec, qualifyingNames_single i v hi h5]
    simp [commaJoin, commaTail]
  have hpt : postTicks ⟨zeroVels.set i v, "", t⟩ = 0 := by
    simp [postTicks, hnh]
  have hnf : ¬(TICK_THRESHOLD < postTicks ⟨zeroVels.set i v, "", t⟩ ∧
      postBuf ⟨zeroVels.set i v, "", t⟩ ≠ "") := by
    rw [hpt]; simp
  rw [tick_eq_of_noflush _ hnf]
  simp [postVels, postBuf, hnh, hchord, hpt, zeroVels_map_half]

theorem tick_zero_vels (st : EngineState) (h : st.velocities = zeroVels) :
    (tick st).chord = none ∧ (tick st).state.velocities = zeroVels := by
  have hnh : needsHandling st.velocities = false := by rw [h]; exact needsHandling_zeroVels
  constructor
  · rw [tick_chord, hnh]
    simp
  · by_cases hf : TICK_THRESHOLD < postTicks st ∧ postBuf st ≠ ""
    · rw [tick_eq_of_flush st hf]
    · rw [tick_eq_of_noflush st hf]
      simp [postVels, hnh, h, zeroVels_map_half]

theorem tickRun_zero_vels (n : Nat) : ∀ st : EngineState, st.velocities = zeroVels →
    (tickRun st n).2 = [] ∧ (tickRun st n).1.velocities = zeroVels := by
  induction n with
  | zero => intro st h; exact ⟨rfl, h⟩
  | succ n ih =>
    intro st h
    obtain ⟨hc, hv⟩ := tick_zero_vels st h
    have hrest := ih (tick st).state hv
    simp only [tickRun]
    rw [hc]
    simpa using hrest

theorem tickRun_add (a b : Nat) : ∀ st : EngineState,
    tickRun st (a + b) =
      ((tickRun (tickRun st a).1 b).1, (tickRun st a).2 ++ (tickRun (tickRun st a).1 b).2) := by
  induction a with
  | zero => intro st; simp [tickRun]
  | succ a ih =>
    intro st
    have h1 : a + 1 + b = (a + b) + 1 := by omega
    rw [h1]
    simp only [tickRun]
    rw [ih (tick st).state]
    cases (tick st).chord <;> simp

theorem fire_eventually : ∀ v : Nat, STROKE_THRESHOLD ≤ v → ∀ i t : Nat, i < 9 →
    ∃ m, 0 < m ∧ tickRun ⟨zeroVels.set i v, "", t⟩ m =
      (⟨zeroVels, drumNames.getD i "" ++ ".", 1⟩, [drumNames.getD i "" ++ "."]) := by
  intro v
  induction v using Nat.strong_induction_on with
  | _ v ih =>
    intro hv i t hi
    by_cases hsmall : v / 2 < STROKE_THRESHOLD
    · refine ⟨1, Nat.one_pos, ?_⟩
      simp [tickRun, tick_fire i v t hi hv hsmall]
    · have hbig : 2 * STROKE_THRESHOLD ≤ v := by
        simp only [STROKE_THRESHOLD] at hsmall ⊢
        omega
      obtain ⟨m, hm, hrun⟩ := ih (v / 2)
        (by simp only [STROKE_THRESHOLD] at hbig ⊢; omega)
        (by simp only [STROKE_THRESHOLD] at hsmall ⊢; omega) i ((t + 1) % 256) hi
      refine ⟨m + 1, by omega, ?_⟩
      simp only [tickRun]
      rw [tick_decay i v t hbig]
      simpa using hrun

theorem run_ticks_quiet (n : Nat) : ∀ t : Nat, ∃ u : Nat,
    run (List.replicate n 0xf8) ⟨zeroVels, "", t⟩ = (⟨zeroVels, "", u⟩, []) := by
  induction n with
  | zero => intro t; exact ⟨t, rfl⟩
  | succ n ih =>
    intro t
    obtain ⟨u, hu⟩ := ih ((t + 1) % 256)
    refine ⟨u, ?_⟩
    rw [List.replicate_succ]
    simp only [run]
    rw [tick_quiet "" t rfl]
    simp [flushOut, hu]

theorem sentenceScan_eq (tbl : List mapEntry) (s : String) :
    sentenceScan tbl s =
      ((tbl.takeWhile fun e => !(e.content == "")).find? fun e => e.content == s).map
        fun e => (e.keycode, e.modifiers) := by
  induction tbl with
  | nil => rfl
  | cons e rest ih =>
    by_cases hc : e.content = ""
    · simp [sentenceScan, hc, List.takeWhile_cons]
    · by_cases hs : s = e.content
      · simp [sentenceScan, hc, hs, List.takeWhile_cons, List.find?_cons]
      · have hne : ¬(e.content = s) := fun h => hs h.symm
        simp [sentenceScan, hc, hs, List.takeWhile_cons, List.find?_cons, hne, ih]

theorem decodeStep_det {c r1 r2 : List Nat × EngineState × List OutEvent}
    (h1 : DecodeStep c r1) (h2 : DecodeStep c r2) : r1 = r2 := by
  cases h1 with
  | clock b rest st evs hb =>
    cases h2 with
    | clock => rfl
    | note b2 key velocity rest2 st2 evs2 hb2 h92 => exact absurd hb hb2
    | skip b2 rest2 st2 evs2 hb2 h92 => exact absurd hb hb2
  | note b key velocity rest st evs hb h9 =>
    cases h2 with
    | clock b2 rest2 st2 evs2 hb2 => exact absurd hb2 hb
    | note => rfl
    | skip b2 rest2 st2 evs2 hb2 h92 => exact absurd h9 h92
  | skip b rest st evs hb h9 =>
    cases h2 with
    | clock b2 rest2 st2 evs2 hb2 => exact absurd hb2 hb
    | note b2 key velocity rest2 st2 evs2 hb2 h92 => exact absurd h92 h9
    | skip => rfl

theorem decodeSteps_unique {d2 : List Nat × EngineState × List OutEvent} :
    ∀ {c d1 : List Nat × EngineState × List OutEvent},
    Relation.ReflTransGen DecodeStep c d1 →
    Relation.ReflTransGen DecodeStep c d2 →
    (∀ e, ¬ DecodeStep d1 e) → (∀ e, ¬ DecodeStep d2 e) → d1 = d2 := by
  intro c d1 h1
  induction h1 using Relation.ReflTransGen.head_induction_on with
  | refl =>
    intro h2 t1 t2
    rcases Relation.ReflTransGen.cases_head h2 with heq | ⟨c2, hstep, _⟩
    · exact heq
    · exact absurd hstep (t1 c2)
  | head hstep htail ih =>
    intro h2 t1 t2
    rcases Relation.ReflTransGen.cases_head h2 with heq | ⟨c2, hstep2, htail2⟩
    · subst heq
      exact absurd hstep (t2 _)
    · obtain rfl := decodeStep_det hstep hstep2
      exact ih htail2 t1 t2

theorem tick_chord_isSome (st : EngineState) :
    (tick st).chord.isSome = true ↔ needsHandling st.velocities = true := by
  rw [tick_chord]
  by_cases h : needsHandling st.velocities = true
  · simp [h]
  · simp [h]

theorem exists_zip_pair {α β : Type} : ∀ (l1 : List α) (l2 : List β) (v : α),
    l1.length = l2.length → v ∈ l1 → ∃ w, (v, w) ∈ l1.zip l2 ∧ w ∈ l2 := by
  intro l1
  induction l1 with
  | nil => intro l2 v _ hv; simp at hv
  | cons a rest ih =>
    intro l2 v hlen hv
    cases l2 with
    | nil => simp at hlen
    | cons b rest2 =>
      rcases List.mem_cons.mp hv with rfl | hv
      · exact ⟨b, by simp, by simp⟩
      · obtain ⟨w, hw1, hw2⟩ := ih rest2 v (by simpa using hlen) hv
        exact ⟨w, by simp [hw1], by simp [hw2]⟩

/-! ## The claims -/

/-- Claim C1: on every tick, a chord is emitted iff some pad's velocity
register `r` satisfies `r ≥ STROKE_THRESHOLD` and `r / 2 <
STROKE_THRESHOLD`; the emitted chord serializes exactly the pads whose
register is `≥ STROKE_THRESHOLD` at that moment; when a chord is emitted
every register is zeroed; and on a chordless (and flushless) tick every
register is halved by integer division. -/
theorem C1_tick_chord_detection (st : EngineState) (hlen : st.velocities.length = 9) :
    ((tick st).chord.isSome ↔
      ∃ v ∈ st.velocities, STROKE_THRESHOLD ≤ v ∧ v / 2 < STROKE_THRESHOLD) ∧
    (∀ c, (tick st).chord = some c → c = chordSpec st.velocities) ∧
    ((tick st).chord.isSome → (tick st).state.velocities = zeroVels) ∧
    ((tick st).chord = none → (tick st).flushed = none →
      (tick st).state.velocities = st.velocities.map fun v => v / 2) := by
  refine ⟨?_, ?_, ?_, ?_⟩
  · constructor
    · intro hs
      exact (needsHandling_iff st.velocities).mp ((tick_chord_isSome st).mp hs)
    · intro he
      exact (tick_chord_isSome st).mpr ((needsHandling_iff st.velocities).mpr he)
  · intro c hc
    rw [tick_chord] at hc
    by_cases h : needsHandling st.velocities = true
    · rw [if_pos h] at hc
      injection hc with h1
      rw [← h1]
      exact handleStroke_eq_chordSpec st.velocities
    · rw [if_neg h] at hc
      exact absurd hc (by simp)
  · intro hs
    have h : needsHandling st.velocities = true := (tick_chord_isSome st).mp hs
    by_cases hf : TICK_THRESHOLD < postTicks st ∧ postBuf st ≠ ""
    · rw [tick_eq_of_flush st hf]
    · rw [tick_eq_of_noflush st hf]
      simp [postVels, h, zeroVels_map_half]
  · intro hcn hfn
    have h : needsHandling st.velocities = false := by
      by_cases h : needsHandling st.velocities = true
      · rw [tick_chord, if_pos h] at hcn
        exact absurd hcn (by simp)
      · exact Bool.eq_false_iff.mpr h
    by_cases hf : TICK_THRESHOLD < postTicks st ∧ postBuf st ≠ ""
    · rw [tick_eq_of_flush st hf] at hfn
      exact absurd hfn (by simp)
    · rw [tick_eq_of_noflush st hf]
      simp [postVels, h]

/-- Witness for C1 at a concrete state: the pad BD at register 9 fires. -/
theorem C1_tick_chord_detection_witness :
    ((tick ⟨[9, 0, 0, 0, 0, 0, 0, 0, 0], "", 0⟩).chord.isSome ↔
      ∃ v ∈ [9, 0, 0, 0, 0, 0, 0, 0, 0], STROKE_THRESHOLD ≤ v ∧ v / 2 < STROKE_THRESHOLD) ∧
    (∀ c, (tick ⟨[9, 0, 0, 0, 0, 0, 0, 0, 0], "", 0⟩).chord = some c →
      c = chordSpec [9, 0, 0, 0, 0, 0, 0, 0, 0]) ∧
    ((tick ⟨[9, 0, 0, 0, 0, 0, 0, 0, 0], "", 0⟩).chord.isSome →
      (tick ⟨[9, 0, 0, 0, 0, 0, 0, 0, 0], "", 0⟩).state.velocities = zeroVels) ∧
    ((tick ⟨[9, 0, 0, 0, 0, 0, 0, 0, 0], "", 0⟩).chord = none →
      (tick ⟨[9, 0, 0, 0, 0, 0, 0, 0, 0], "", 0⟩).flushed = none →
      (tick ⟨[9, 0, 0, 0, 0, 0, 0, 0, 0], "", 0⟩).state.velocities =
        [9, 0, 0, 0, 0, 0, 0, 0, 0].map fun v => v / 2) :=
  C1_tick_chord_detection ⟨[9, 0, 0, 0, 0, 0, 0, 0, 0], "", 0⟩ (by decide)

/-- Claim C2 is false on the code: line 260 resets `ticksSinceStroke` only
when the sentence buffer was empty before the append.  Concretely: from the
zeroed start, strike RIDE, let its chord fire (3 ticks), strike RIDE again
and let the second chord fire (3 more ticks) — after the tick that appends
the second chord the counter is 4, not reset; and extending the stream by
just 3 further silent ticks (6 in all after the second strike) already
flushes the two-chord sentence, so the silence window is measured from the
first chord, not from the most recently appended one. -/
theorem C2_counterexample :
    (run [0x90, 0x3b, 20, 0xf8, 0xf8, 0xf8, 0x90, 0x3b, 20, 0xf8, 0xf8, 0xf8] initState).1 =
      ⟨zeroVels, "RIDE.RIDE.", 4⟩ ∧
    (run ([0x90, 0x3b, 20, 0xf8, 0xf8, 0xf8, 0x90, 0x3b, 20] ++ List.replicate 6 0xf8)
        initState).2 = [OutEvent.keystroke 0x41 1] := by
  decide

/-- Claim C2 (amended): the SilenceCounter is reset to 0 on a chord-append
tick only when the sentence was empty before the append (ending the tick at
1 after the unconditional per-tick increment); when a chord is appended to
an already non-empty sentence the counter is not reset and continues from
its prior value (still incremented mod 256 each tick); a flush resets it
to 0. -/
theorem C2_silence_counter_reset (st : EngineState) (h : (tick st).chord.isSome) :
    (st.buf = "" → (tick st).state.ticks = 1) ∧
    (st.buf ≠ "" → (tick st).flushed = none →
      (tick st).state.ticks = (st.ticks + 1) % 256) ∧
    (st.buf ≠ "" → (tick st).flushed.isSome → (tick st).state.ticks = 0) := by
  have hnh : needsHandling st.velocities = true := (tick_chord_isSome st).mp h
  refine ⟨?_, ?_, ?_⟩
  · intro hb
    have hpt : postTicks st = 0 := by simp [postTicks, hnh, hb]
    have hnf : ¬(TICK_THRESHOLD < postTicks st ∧ postBuf st ≠ "") := by
      rw [hpt]; simp
    rw [tick_eq_of_noflush st hnf]
    simp [hpt]
  · intro hb hfn
    have hpt : postTicks st = st.ticks := by simp [postTicks, hb]
    by_cases hf : TICK_THRESHOLD < postTicks st ∧ postBuf st ≠ ""
    · rw [tick_eq_of_flush st hf] at hfn
      exact absurd hfn (by simp)
    · rw [tick_eq_of_noflush st hf]
      simp [hpt]
  · intro hb hfs
    by_cases hf : TICK_THRESHOLD < postTicks st ∧ postBuf st ≠ ""
    · rw [tick_eq_of_flush st hf]
    · rw [tick_eq_of_noflush st hf] at hfs
      exact absurd hfs (by simp)

/-- Witness for the amended C2: a lone BD register at 5 fires into an empty
sentence and the counter ends the tick at 1. -/
theorem C2_silence_counter_reset_witness :
    ((⟨[5, 0, 0, 0, 0, 0, 0, 0, 0], "", 7⟩ : EngineState).buf = "" →
      (tick ⟨[5, 0, 0, 0, 0, 0, 0, 0, 0], "", 7⟩).state.ticks = 1) ∧
    ((⟨[5, 0, 0, 0, 0, 0, 0, 0, 0], "", 7⟩ : EngineState).buf ≠ "" →
      (tick ⟨[5, 0, 0, 0, 0, 0, 0, 0, 0], "", 7⟩).flushed = none →
      (tick ⟨[5, 0, 0, 0, 0, 0, 0, 0, 0], "", 7⟩).state.ticks = (7 + 1) % 256) ∧
    ((⟨[5, 0, 0, 0, 0, 0, 0, 0, 0], "", 7⟩ : EngineState).buf ≠ "" →
      (tick ⟨[5, 0, 0, 0, 0, 0, 0, 0, 0], "", 7⟩).flushed.isSome →
      (tick ⟨[5, 0, 0, 0, 0, 0, 0, 0, 0], "", 7⟩).state.ticks = 0) :=
  C2_silence_counter_reset ⟨[5, 0, 0, 0, 0, 0, 0, 0, 0], "", 7⟩ (by decide)

/-- Claim C3 names a code bug: the source sets `buf[0] = 0` and
`ticksSinceStroke = 0` but obtains `velocities` from `malloc` (line 248)
without ever initializing it, so the registers are NOT guaranteed to be 0
at startup.  Two startup register contents `malloc` may legally return
produce different behaviour on the very first tick with no note input at
all: garbage bytes 7 emit a spurious nine-pad chord, zero bytes emit
nothing.  The flush-reset half of the claim does hold: a flushing tick
resets every register to 0 (third conjunct, at a concrete flushing
state). -/
theorem C3_startup_registers :
    (tick (startState (List.replicate 9 7))).chord =
      some "BD,HH,HH,CRASH,SNARE,SIDETOM,RIDE,FLOORTOM,HATFOOT." ∧
    (tick (startState (List.replicate 9 0))).chord = none ∧
    (tick ⟨[3, 1, 4, 1, 0, 0, 2, 0, 1], "RIDE.", 6⟩).flushed = some "RIDE." ∧
    (tick ⟨[3, 1, 4, 1, 0, 0, 2, 0, 1], "RIDE.", 6⟩).state = ⟨zeroVels, "", 0⟩ := by
  decide

/-- Claim C4: pattern lookup is an exact-string-match linear scan — for
every sentence `s` it returns the action of the first table entry whose
pattern equals `s` exactly, scanning only up to the empty-pattern sentinel,
and returns nothing when no entry matches; in particular the one-chord and
two-chord RIDE patterns select distinct entries and the nonsense sentence
HH,HH. matches nothing. -/
theorem C4_lookup_exact_match (s : String) :
    handleSentence s =
      (((map.takeWhile fun e => !(e.content == "")).find? fun e => e.content == s).map
        fun e => (e.keycode, e.modifiers)) ∧
    handleSentence "RIDE." = some (XK_a, 0) ∧
    handleSentence "RIDE.RIDE." = some (XK_A, ShiftMask) ∧
    handleSentence "HH,HH." = none := by
  refine ⟨sentenceScan_eq map s, by decide, by decide, by decide⟩

/-- Claim C5: a tick flushes exactly when the sentence is non-empty and the
silence counter (as of the start of the tick) exceeds `TICK_THRESHOLD`;
every flush resets sentence, counter and all registers, and produces the
matched keystroke when the lookup succeeds and the non-fatal
`UNKNOWN SEQUENCE` diagnostic carrying the literal sentence text when it
fails. -/
theorem C5_flush_condition (st : EngineState) :
    ((tick st).flushed.isSome ↔ st.buf ≠ "" ∧ TICK_THRESHOLD < st.ticks) ∧
    (∀ s, (tick st).flushed = some s →
      (tick st).state = ⟨zeroVels, "", 0⟩ ∧
      (∀ k m, handleSentence s = some (k, m) → flushEvent s = OutEvent.keystroke k m) ∧
      (handleSentence s = none → flushEvent s = OutEvent.unknownSequence s)) := by
  refine ⟨tick_flushed_isSome st, ?_⟩
  intro s hs
  refine ⟨?_, ?_, ?_⟩
  · by_cases hf : TICK_THRESHOLD < postTicks st ∧ postBuf st ≠ ""
    · rw [tick_eq_of_flush st hf]
    · rw [tick_eq_of_noflush st hf] at hs
      exact absurd hs (by simp)
  · intro k m hk
    rw [flushEvent, hk]
  · intro hk
    rw [flushEvent, hk]

/-- Witness for C5 at a flushing state: unmatched sentence HH,HH. flushes,
resets the state and yields the diagnostic. -/
theorem C5_flush_condition_witness :
    (tick ⟨[0, 0, 0, 0, 0, 0, 0, 0, 0], "HH,HH.", 6⟩).state = ⟨zeroVels, "", 0⟩ ∧
    flushEvent "HH,HH." = OutEvent.unknownSequence "HH,HH." := by
  have h := (C5_flush_condition ⟨[0, 0, 0, 0, 0, 0, 0, 0, 0], "HH,HH.", 6⟩).2
    "HH,HH." (by decide)
  exact ⟨h.1, h.2.2 (by decide)⟩

/-- Claim C6: a note event overwrites the pad's register with the strike
force exactly when the force is at least `HIT_THRESHOLD` and the key is a
known pad ID; otherwise the byte pair is discarded and the state is
untouched — and a below-threshold strike followed by any number of ticks
produces no output event at all and leaves the sentence empty. -/
theorem C6_note_event (st : EngineState) (key v : Nat) :
    (HIT_THRESHOLD ≤ v → key ∈ drums →
      noteOn st key v =
        { st with velocities := st.velocities.set (drums.indexOf key) v }) ∧
    (v < HIT_THRESHOLD ∨ key ∉ drums → noteOn st key v = st) ∧
    (v < HIT_THRESHOLD → ∀ n : Nat,
      (run (0x90 :: key :: v :: List.replicate n 0xf8) initState).2 = [] ∧
      (run (0x90 :: key :: v :: List.replicate n 0xf8) initState).1.buf = "") := by
  refine ⟨?_, ?_, ?_⟩
  · intro hv hk
    rw [noteOn, if_pos ⟨hv, hk⟩]
  · intro hlow
    rw [noteOn, if_neg]
    rintro ⟨h1, h2⟩
    rcases hlow with hlow | hlow
    · omega
    · exact hlow h2
  · intro hv n
    have hnote : noteOn initState key v = initState := by
      rw [noteOn, if_neg]
      rintro ⟨h1, _⟩
      omega
    obtain ⟨u, hu⟩ := run_ticks_quiet n 0
    have hr : run (0x90 :: key :: v :: List.replicate n 0xf8) initState =
        (⟨zeroVels, "", u⟩, []) := by
      simp only [run]
      rw [if_neg (by decide), if_pos (by decide)]
      simp only [noteRead]
      rw [hnote]
      exact hu
    rw [hr]
    exact ⟨rfl, rfl⟩

/-- Witness for C6: RIDE at force 100 registers (overwrite), RIDE at force
10 is discarded, and the discarded strike plus three ticks yields no output
and an empty sentence. -/
theorem C6_note_event_witness :
    noteOn ⟨[0, 0, 0, 0, 0, 0, 0, 0, 0], "", 0⟩ RIDE 100 =
      ⟨[0, 0, 0, 0, 0, 0, 100, 0, 0], "", 0⟩ ∧
    noteOn ⟨[0, 0, 0, 0, 0, 0, 0, 0, 0], "", 0⟩ RIDE 10 =
      ⟨[0, 0, 0, 0, 0, 0, 0, 0, 0], "", 0⟩ ∧
    (run (0x90 :: RIDE :: 10 :: List.replicate 3 0xf8) initState).2 = [] :=
  ⟨(C6_note_event ⟨[0, 0, 0, 0, 0, 0, 0, 0, 0], "", 0⟩ RIDE 100).1 (by decide) (by decide),
   (C6_note_event ⟨[0, 0, 0, 0, 0, 0, 0, 0, 0], "", 0⟩ RIDE 10).2.1 (Or.inl (by decide)),
   ((C6_note_event ⟨[0, 0, 0, 0, 0, 0, 0, 0, 0], "", 0⟩ RIDE 10).2.2 (by decide) 3).1⟩

/-- Claim C7: chord serialization is independent of strike arrival order —
note events on distinct pads commute, the concrete BD & SNARE pair struck
in either order within one window produces the single chord text
BD,SNARE. after its decay cycle, and each chord is appended to the
sentence with no separator beyond its own trailing period. -/
theorem C7_chord_order_independent (k1 k2 v1 v2 : Nat) (hne : k1 ≠ k2) :
    (∀ st : EngineState, noteOn (noteOn st k1 v1) k2 v2 = noteOn (noteOn st k2 v2) k1 v1) ∧
    (tickRun (noteOn (noteOn initState BD 0x40) SNARE 0x40) 4).2 = ["BD,SNARE."] ∧
    (tickRun (noteOn (noteOn initState SNARE 0x40) BD 0x40) 4).2 = ["BD,SNARE."] ∧
    (∀ st : EngineState, (tick st).flushed = none →
      (tick st).state.buf = st.buf ++ ((tick st).chord.getD "")) := by
  refine ⟨?_, by decide, by decide, ?_⟩
  · intro st
    by_cases hc1 : HIT_THRESHOLD ≤ v1 ∧ k1 ∈ drums
    · by_cases hc2 : HIT_THRESHOLD ≤ v2 ∧ k2 ∈ drums
      · have hij : drums.indexOf k1 ≠ drums.indexOf k2 :=
          fun he => hne ((List.indexOf_inj hc1.2 hc2.2).mp he)
        simp only [noteOn, if_pos hc1, if_pos hc2]
        show EngineState.mk ((st.velocities.set (drums.indexOf k1) v1).set (drums.indexOf k2) v2)
            st.buf st.ticks =
          EngineState.mk ((st.velocities.set (drums.indexOf k2) v2).set (drums.indexOf k1) v1)
            st.buf st.ticks
        rw [List.set_comm v1 v2 st.velocities hij]
      · simp only [noteOn, if_pos hc1, if_neg hc2]
    · by_cases hc2 : HIT_THRESHOLD ≤ v2 ∧ k2 ∈ drums
      · simp only [noteOn, if_neg hc1, if_pos hc2]
      · simp only [noteOn, if_neg hc1, if_neg hc2]
  · intro st hfn
    by_cases hf : TICK_THRESHOLD < postTicks st ∧ postBuf st ≠ ""
    · rw [tick_eq_of_flush st hf] at hfn
      exact absurd hfn (by simp)
    · rw [tick_eq_of_noflush st hf]
      by_cases hnh : needsHandling st.velocities = true
      · simp [postBuf, hnh]
      · simp [postBuf, hnh]

/-- Witness for C7 at BD and SNARE. -/
theorem C7_chord_order_independent_witness :
    noteOn (noteOn ⟨[0, 0, 0, 0, 0, 0, 0, 0, 0], "", 0⟩ BD 0x40) SNARE 0x40 =
      noteOn (noteOn ⟨[0, 0, 0, 0, 0, 0, 0, 0, 0], "", 0⟩ SNARE 0x40) BD 0x40 ∧
    (tickRun (noteOn (noteOn initState BD 0x40) SNARE 0x40) 4).2 = ["BD,SNARE."] :=
  ⟨(C7_chord_order_independent BD SNARE 0x40 0x40 (by decide)).1
      ⟨[0, 0, 0, 0, 0, 0, 0, 0, 0], "", 0⟩,
   (C7_chord_order_independent BD SNARE 0x40 0x40 (by decide)).2.1⟩

/-- Claim C8: for every known pad and every force at or above
`HIT_THRESHOLD`, a single note event from the zeroed start followed by
enough ticks yields exactly one emitted chord, consisting of that pad's
name alone, and no further chord ever (the chord list stays a singleton
for every longer tick count). -/
theorem C8_single_strike (k v : Nat) (hk : k ∈ drums) (hv : HIT_THRESHOLD ≤ v) :
    ∃ m, 0 < m ∧ ∀ n, m ≤ n →
      (tickRun (noteOn initState k v) n).2 =
        [drumNames.getD (drums.indexOf k) "" ++ "."] := by
  have hi : drums.indexOf k < 9 := by
    have h := List.indexOf_lt_length.mpr hk
    simpa using h
  have hst : noteOn initState k v = ⟨zeroVels.set (drums.indexOf k) v, "", 0⟩ := by
    rw [noteOn, if_pos ⟨hv, hk⟩]
    rfl
  have h5 : STROKE_THRESHOLD ≤ v := by
    simp only [STROKE_THRESHOLD]
    simp only [HIT_THRESHOLD] at hv
    omega
  obtain ⟨m, hm, hrun⟩ := fire_eventually v h5 (drums.indexOf k) 0 hi
  refine ⟨m, hm, ?_⟩
  intro n hn
  obtain ⟨d, rfl⟩ : ∃ d, n = m + d := ⟨n - m, by omega⟩
  rw [hst, tickRun_add, hrun]
  have hq := tickRun_zero_vels d
    ⟨zeroVels, drumNames.getD (drums.indexOf k) "" ++ ".", 1⟩ rfl
  simp only [hq.1, List.append_nil]

/-- Witness for C8: a single RIDE strike at force 100. -/
theorem C8_single_strike_witness :
    ∃ m, 0 < m ∧ ∀ n, m ≤ n →
      (tickRun (noteOn initState RIDE 100) n).2 =
        [drumNames.getD (drums.indexOf RIDE) "" ++ "."] :=
  C8_single_strike RIDE 100 (by decide) (by decide)

/-- Claim C9: the decode loop is deterministic — from any starting
configuration (in particular the initial state on a given byte stream) any
two maximal executions of the step relation reach the same final
configuration, hence the same sequence of matched or unmatched sentences
and output actions; all timing is in counted ticks, and no other input
enters the relation. -/
theorem C9_decode_deterministic (bytes : List Nat) (st0 : EngineState)
    (d1 d2 : List Nat × EngineState × List OutEvent)
    (h1 : Relation.ReflTransGen DecodeStep (bytes, st0, []) d1)
    (h2 : Relation.ReflTransGen DecodeStep (bytes, st0, []) d2)
    (t1 : ∀ e, ¬ DecodeStep d1 e) (t2 : ∀ e, ¬ DecodeStep d2 e) : d1 = d2 :=
  decodeSteps_unique h1 h2 t1 t2

/-- Witness for C9: the one-byte stream consisting of a single tick. -/
theorem C9_decode_deterministic_witness :
    (([], EngineState.mk zeroVels "" 1, []) : List Nat × EngineState × List OutEvent) =
      ([], EngineState.mk zeroVels "" 1, []) := by
  have hstep : DecodeStep ([0xf8], initState, []) ([], ⟨zeroVels, "", 1⟩, []) := by
    have h := DecodeStep.clock 0xf8 [] initState [] (by decide)
    have he : (([], (tick initState).state, [] ++ flushOut (tick initState).flushed) :
        List Nat × EngineState × List OutEvent) = ([], ⟨zeroVels, "", 1⟩, []) := by decide
    rwa [he] at h
  have hterm : ∀ e, ¬ DecodeStep (([], EngineState.mk zeroVels "" 1, []) :
      List Nat × EngineState × List OutEvent) e := by
    intro e h
    cases h
  exact C9_decode_deterministic [0xf8] initState _ _
    (Relation.ReflTransGen.single hstep) (Relation.ReflTransGen.single hstep) hterm hterm

/-- Claim C10 (implicit): every chord string the tick handler appends
contains at least one pad name — the firing condition guarantees some pad
passes the serialization's membership test, so the qualifying-name list is
non-empty and the bare chord "." is never produced. -/
theorem C10_no_empty_chord (st : EngineState) (hlen : st.velocities.length = 9)
    (c : String) (hc : (tick st).chord = some c) :
    qualifyingNames st.velocities ≠ [] ∧ c ≠ "." := by
  have hnh : needsHandling st.velocities = true := by
    apply (tick_chord_isSome st).mp
    rw [hc]
    rfl
  obtain ⟨v, hvmem, hv5, _⟩ := (needsHandling_iff st.velocities).mp hnh
  have hq : qualifyingNames st.velocities ≠ [] := by
    obtain ⟨w, hw1, _⟩ := exists_zip_pair st.velocities drumNames v
      (by rw [hlen]; rfl) hvmem
    have hmemf : (v, w) ∈ (st.velocities.zip drumNames).filter
        (fun p => decide (STROKE_THRESHOLD ≤ p.1)) :=
      List.mem_filter.mpr ⟨hw1, by simpa using hv5⟩
    have : w ∈ qualifyingNames st.velocities :=
      List.mem_map.mpr ⟨(v, w), hmemf, rfl⟩
    exact List.ne_nil_of_mem this
  refine ⟨hq, ?_⟩
  have hcs : c = chordSpec st.velocities := by
    rw [tick_chord, if_pos hnh] at hc
    injection hc with h1
    rw [← h1]
    exact handleStroke_eq_chordSpec st.velocities
  obtain ⟨nm, rest, hqr⟩ := List.exists_cons_of_ne_nil hq
  have hnm : nm ∈ drumNames := by
    have hmem : nm ∈ qualifyingNames st.velocities := by rw [hqr]; simp
    obtain ⟨p, hp1, hp2⟩ := List.mem_map.mp hmem
    have hpz : p ∈ st.velocities.zip drumNames := (List.mem_filter.mp hp1).1
    have := List.of_mem_zip (a := p.1) (b := p.2) (by simpa using hpz)
    rw [← hp2]
    exact this.2
  have hnmlen : 1 ≤ nm.length := by
    have hall : ∀ x ∈ drumNames, 1 ≤ x.length := by decide
    exact hall nm hnm
  intro he
  have hlc := congrArg String.length he
  rw [hcs, chordSpec, hqr] at hlc
  rw [String.length_append] at hlc
  have hcj : commaJoin (nm :: rest) = nm ++ commaTail rest := rfl
  rw [hcj, String.length_append] at hlc
  have hdot : (".".length : Nat) = 1 := rfl
  rw [hdot] at hlc
  omega

/-- Witness for C10: the single-pad chord BD. is not the bare period. -/
theorem C10_no_empty_chord_witness :
    qualifyingNames [5, 0, 0, 0, 0, 0, 0, 0, 0] ≠ [] ∧ "BD." ≠ "." :=
  C10_no_empty_chord ⟨[5, 0, 0, 0, 0, 0, 0, 0, 0], "", 0⟩ (by decide) "BD." (by decide)
